import Mathlib

/-!
Verification of the gravity-lens renderer core (ray/scene intersection and
shading pipeline) against its specification.

The source is embedded shallowly:
* scene-level geometry uses exact rationals (`ℚ`); the square root and tangent
  of `f32` are abstracted as function parameters `sq`/`tn`, with their defining
  properties assumed as hypotheses where a theorem needs them;
* the metaball ray march, whose behaviour depends on IEEE-754 special values
  (division by zero, NaN propagation, infinities), is embedded over an extended
  value type `FQ` = finite rational | +inf | -inf | NaN with IEEE-754
  propagation rules and the same abstracted square root;
* the `while` loop of the metaball march is embedded with explicit fuel: the
  outer `none` means the fuel ran out, `some r` means the loop finished with
  result `r`.
-/

namespace GravityLens

/-- 3-component vector over exact rationals, embedding `glam::Vec3` (whose
components are `f32`). -/
structure Vec3 where
  x : ℚ
  y : ℚ
  z : ℚ
deriving DecidableEq

namespace Vec3

/-- Componentwise addition. -/
def add (a b : Vec3) : Vec3 := ⟨a.x + b.x, a.y + b.y, a.z + b.z⟩

/-- Componentwise subtraction. -/
def sub (a b : Vec3) : Vec3 := ⟨a.x - b.x, a.y - b.y, a.z - b.z⟩

/-- Componentwise negation. -/
def neg (a : Vec3) : Vec3 := ⟨-a.x, -a.y, -a.z⟩

/-- Scalar multiplication (`v * s` and `s * v` in glam). -/
def smul (s : ℚ) (a : Vec3) : Vec3 := ⟨s * a.x, s * a.y, s * a.z⟩

/-- Componentwise multiplication (`Vec3 * Vec3` in glam). -/
def mul (a b : Vec3) : Vec3 := ⟨a.x * b.x, a.y * b.y, a.z * b.z⟩

/-- Division of a vector by a scalar (`Vec3 / f32` in glam). -/
def divs (a : Vec3) (s : ℚ) : Vec3 := ⟨a.x / s, a.y / s, a.z / s⟩

/-- Dot product. -/
def dot (a b : Vec3) : ℚ := a.x * b.x + a.y * b.y + a.z * b.z

/-- Cross product. -/
def cross (a b : Vec3) : Vec3 :=
  ⟨a.y * b.z - a.z * b.y, a.z * b.x - a.x * b.z, a.x * b.y - a.y * b.x⟩

/-- Embeds `Vec3::length_squared`. -/
def length_squared (a : Vec3) : ℚ := dot a a

/-- Embeds `Vec3::length`, with the square root abstracted as `sq`. -/
def length (sq : ℚ → ℚ) (a : Vec3) : ℚ := sq (dot a a)

/-- Embeds `Vec3::normalize`: `v / v.length()`. -/
def normalize (sq : ℚ → ℚ) (a : Vec3) : Vec3 := divs a (length sq a)

/-- Embeds `Vec3::map`: apply `f` to every component. -/
def map (f : ℚ → ℚ) (a : Vec3) : Vec3 := ⟨f a.x, f a.y, f a.z⟩

/-- The zero vector (`Vec3::ZERO`, also `BLACK`). -/
def zero : Vec3 := ⟨0, 0, 0⟩

/-- Sum of a list of vectors, as Rust `Iterator::sum` (left fold from zero). -/
def vsum (l : List Vec3) : Vec3 := l.foldl add zero

end Vec3

/-- Embeds `Ray { pos, dir }`. -/
structure Ray where
  pos : Vec3
  dir : Vec3
deriving DecidableEq

/-- Embeds `Ray::at`: `self.pos + self.dir * t`. -/
def Ray.at (r : Ray) (t : ℚ) : Vec3 := Vec3.add r.pos (Vec3.smul t r.dir)

/-- Embeds `Sphere { center, radius }`. -/
structure Sphere where
  center : Vec3
  radius : ℚ
deriving DecidableEq

/-- Embeds `Sphere::intersect_in` (src/object.rs lines 135-153): solve the
quadratic, reject a negative discriminant, prefer the root
`(-b - sqrt(disc)) / (2 a)` when it is positive, otherwise fall back to
`(-b + sqrt(disc)) / (2 a)`; either root is returned only when `< max_t`. -/
def Sphere.intersect_in (sq : ℚ → ℚ) (s : Sphere) (ray : Ray) (max_t : ℚ) : Option ℚ :=
  let oc := Vec3.sub ray.pos s.center
  let a := ray.dir.length_squared
  let b := 2 * Vec3.dot oc ray.dir
  let c := oc.length_squared - s.radius * s.radius
  let discriminant := b * b - 4 * a * c
  if discriminant < 0 then none
  else
    let t := (-b - sq discriminant) / (2 * a)
    if t > 0 then (if t < max_t then some t else none)
    else
      let t2 := (-b + sq discriminant) / (2 * a)
      if t2 < max_t then some t2 else none

/-- Embeds `Sphere::normal_at`: `(point - center).normalize()`. -/
def Sphere.normal_at (sq : ℚ → ℚ) (s : Sphere) (point : Vec3) : Vec3 :=
  Vec3.normalize sq (Vec3.sub point s.center)

/-!
## Extended values for the metaball march

`MetaBalls::intersect_in` can divide by zero and produce NaN; its control flow
depends on IEEE-754 special values.  `FQ` models an `f32` value exactly as a
finite rational, an infinity, or NaN (rounding is not modelled; the concrete
inputs used with this model keep all finite values exactly representable). -/
inductive FQ where
  | fin : ℚ → FQ
  | inf : FQ
  | ninf : FQ
  | nan : FQ
deriving DecidableEq

namespace FQ

/-- IEEE-754 negation. -/
def neg : FQ → FQ
  | fin a => fin (-a)
  | inf => ninf
  | ninf => inf
  | nan => nan

/-- IEEE-754 addition (signed zeros are not distinguished). -/
def add : FQ → FQ → FQ
  | nan, _ => nan
  | _, nan => nan
  | inf, ninf => nan
  | ninf, inf => nan
  | inf, _ => inf
  | _, inf => inf
  | ninf, _ => ninf
  | _, ninf => ninf
  | fin a, fin b => fin (a + b)

/-- IEEE-754 subtraction, `a - b = a + (-b)`. -/
def sub (a b : FQ) : FQ := add a (neg b)

/-- IEEE-754 multiplication (signed zeros are not distinguished: an infinite
product with a negative factor is the infinity of the product sign). -/
def mul : FQ → FQ → FQ
  | nan, _ => nan
  | _, nan => nan
  | inf, inf => inf
  | inf, ninf => ninf
  | ninf, inf => ninf
  | ninf, ninf => inf
  | inf, fin b => if 0 < b then inf else if b < 0 then ninf else nan
  | fin a, inf => if 0 < a then inf else if a < 0 then ninf else nan
  | ninf, fin b => if 0 < b then ninf else if b < 0 then inf else nan
  | fin a, ninf => if 0 < a then ninf else if a < 0 then inf else nan
  | fin a, fin b => fin (a * b)

/-- IEEE-754 division (signed zeros are not distinguished: finite / 0 is the
infinity of the numerator's sign, and `0 / 0` is NaN). -/
def div : FQ → FQ → FQ
  | nan, _ => nan
  | _, nan => nan
  | inf, inf => nan
  | inf, ninf => nan
  | ninf, inf => nan
  | ninf, ninf => nan
  | inf, fin b => if b < 0 then ninf else inf
  | ninf, fin b => if b < 0 then inf else ninf
  | fin _, inf => fin 0
  | fin _, ninf => fin 0
  | fin a, fin b =>
    if b = 0 then (if 0 < a then inf else if a < 0 then ninf else nan)
    else fin (a / b)

/-- IEEE-754 absolute value. -/
def abs : FQ → FQ
  | fin a => fin |a|
  | inf => inf
  | ninf => inf
  | nan => nan

/-- IEEE-754 `<`: false whenever an operand is NaN. -/
def lt : FQ → FQ → Bool
  | nan, _ => false
  | _, nan => false
  | ninf, ninf => false
  | ninf, _ => true
  | _, ninf => false
  | inf, _ => false
  | fin _, inf => true
  | fin a, fin b => decide (a < b)

/-- IEEE-754 `≤`: false whenever an operand is NaN. -/
def le : FQ → FQ → Bool
  | nan, _ => false
  | _, nan => false
  | ninf, _ => true
  | _, ninf => false
  | _, inf => true
  | inf, _ => false
  | fin a, fin b => decide (a ≤ b)

/-- Sum of a list, as Rust `Iterator::sum` for `f32` (left fold from `0.0`). -/
def fsum (l : List FQ) : FQ := l.foldl add (fin 0)

end FQ

/-- `Vec3` whose components are modelled `f32` values, for the metaball march. -/
structure Vec3F where
  x : FQ
  y : FQ
  z : FQ
deriving DecidableEq

namespace Vec3F

/-- Componentwise addition. -/
def add (a b : Vec3F) : Vec3F := ⟨FQ.add a.x b.x, FQ.add a.y b.y, FQ.add a.z b.z⟩

/-- Componentwise subtraction. -/
def sub (a b : Vec3F) : Vec3F := ⟨FQ.sub a.x b.x, FQ.sub a.y b.y, FQ.sub a.z b.z⟩

/-- Scalar multiplication. -/
def smul (s : FQ) (a : Vec3F) : Vec3F := ⟨FQ.mul s a.x, FQ.mul s a.y, FQ.mul s a.z⟩

/-- Dot product (left-to-right accumulation). -/
def dot (a b : Vec3F) : FQ :=
  FQ.add (FQ.add (FQ.mul a.x b.x) (FQ.mul a.y b.y)) (FQ.mul a.z b.z)

/-- Embeds `Vec3::length` over modelled `f32` values: square root of the dot
square.  The square root on nonnegative finite values is the abstract `sq`;
IEEE-754 fixes it on specials (`sqrt` of a negative value is NaN). -/
def length (sq : ℚ → ℚ) (a : Vec3F) : FQ :=
  match dot a a with
  | FQ.fin q => if q < 0 then FQ.nan else FQ.fin (sq q)
  | FQ.inf => FQ.inf
  | FQ.ninf => FQ.nan
  | FQ.nan => FQ.nan

end Vec3F

/-- Embeds `Ray` for the metaball march (modelled `f32` components). -/
structure RayF where
  pos : Vec3F
  dir : Vec3F
deriving DecidableEq

/-- Embeds `MetaBall { material_ref, center, power }` for the march. -/
structure MetaBallF where
  material_ref : Option ℕ
  center : Vec3F
  power : FQ
deriving DecidableEq

/-- Embeds `MetaBall::strength_at`: `power / (point - center).length()`. -/
def MetaBallF.strength_at (sq : ℚ → ℚ) (ball : MetaBallF) (point : Vec3F) : FQ :=
  FQ.div ball.power (Vec3F.length sq (Vec3F.sub point ball.center))

/-- Embeds `MetaBalls { balls, threshold }` for the march. -/
structure MetaBallsF where
  balls : List MetaBallF
  threshold : FQ
deriving DecidableEq

namespace MetaBallsF

/-- Embeds `MetaBalls::force_at`: sum of the balls' strengths at `point`. -/
def force_at (sq : ℚ → ℚ) (mb : MetaBallsF) (point : Vec3F) : FQ :=
  FQ.fsum (mb.balls.map (fun ball => ball.strength_at sq point))

/-- The loop body's step (src/object.rs lines 179-181):
`power / force - power / threshold` evaluated at the marching position `t`. -/
def stepAt (sq : ℚ → ℚ) (mb : MetaBallsF) (ray : RayF) (power t : FQ) : FQ :=
  let point := Vec3F.add ray.pos (Vec3F.smul t ray.dir)
  let force := mb.force_at sq point
  FQ.sub (FQ.div power force) (FQ.div power mb.threshold)

/-- The `while` loop of `MetaBalls::intersect_in` (src/object.rs lines 172-182),
with explicit fuel: outer `none` = fuel exhausted (the loop would keep
running), `some r` = the loop finished with result `r`. -/
def march (sq : ℚ → ℚ) (mb : MetaBallsF) (ray : RayF) (max_t power : FQ) :
    ℕ → FQ → Option (Option FQ)
  | 0, _ => none
  | fuel + 1, t =>
    if FQ.lt t max_t then
      let point := Vec3F.add ray.pos (Vec3F.smul t ray.dir)
      let force := mb.force_at sq point
      if FQ.lt (FQ.abs (FQ.sub force mb.threshold)) (FQ.fin (1 / 1000)) then
        some (some t)
      else
        march sq mb ray max_t power fuel (FQ.add t (stepAt sq mb ray power t))
    else some none

/-- Embeds `MetaBalls::intersect_in` (src/object.rs lines 169-184): total
power, then march from `t = 0`. -/
def intersect_in (sq : ℚ → ℚ) (mb : MetaBallsF) (ray : RayF) (max_t : FQ)
    (fuel : ℕ) : Option (Option FQ) :=
  march sq mb ray max_t (FQ.fsum (mb.balls.map MetaBallF.power)) fuel (FQ.fin 0)

end MetaBallsF

/-!
## Scene-level model over exact rationals

The scene layer (object scan, shading, lighting, camera) is embedded over `ℚ`.
Division by zero follows Lean's `x / 0 = 0` convention here; the claims settled
against this layer do not depend on values produced by a zero division.  The
`Scene` parameter of the Rust shading functions is only ever used for its
material list, so these embeddings take the material list directly. -/

/-- Embeds `Material` (src/material.rs): `Simple { color }` or `Normal`. -/
inductive Material where
  | simple : Vec3 → Material
  | normal : Material
deriving DecidableEq

/-- Embeds `DEFAULT_MATERIAL: Material = Material::Normal`. -/
def DEFAULT_MATERIAL : Material := Material.normal

/-- Embeds `Materials::get` (a plain index into the material list; the source
panics on an out-of-range index, the model totalizes it with the default
material — theorems about resolved materials index in bounds). -/
def Materials.get (materials : List Material) (material_ref : ℕ) : Material :=
  materials.getD material_ref DEFAULT_MATERIAL

/-- Embeds the hit record `Inter { object_ref, t, point, normal }`. -/
structure Inter where
  object_ref : ℕ
  t : ℚ
  point : Vec3
  normal : Vec3
deriving DecidableEq

/-- Embeds `Lighting { force }`. -/
structure Lighting where
  force : Vec3
deriving DecidableEq

/-- Embeds `Material::color_at` (src/material.rs lines 30-37): a simple
material multiplies its color by the accumulated lighting force componentwise;
the normal material maps the hit normal through `0.5 * (c + 1)` and ignores
the lighting. -/
def Material.color_at (m : Material) (inter : Inter) (lighting : Lighting) : Vec3 :=
  match m with
  | Material.simple color => Vec3.mul color lighting.force
  | Material.normal => inter.normal.map (fun c => 1 / 2 * (c + 1))

/-- Embeds `f32::clamp`. -/
def qclamp (x lo hi : ℚ) : ℚ := if x < lo then lo else if x > hi then hi else x

/-- Embeds `Light` (src/light.rs).  The HDRI environment image and its lazy
file loading are I/O plumbing declared out of scope by the spec; the modelled
HDRI variant carries the sampling function `sample : direction → color`
abstractly. -/
inductive Light where
  | ambient : Vec3 → Light
  | point : Vec3 → Vec3 → Light
  | directional : Vec3 → Vec3 → Light
  | hdri : (Vec3 → Vec3) → Light

/-- Embeds `Light::diffuse` (src/light.rs lines 42-59). -/
def Light.diffuse (sq : ℚ → ℚ) (l : Light) (ray : Ray) (inter : Inter) : Vec3 :=
  match l with
  | Light.ambient intensity => intensity
  | Light.point pos intensity =>
    let light_dir := Vec3.normalize sq (Vec3.sub pos (ray.at inter.t))
    let d := qclamp (Vec3.dot inter.normal light_dir) 0 1
    Vec3.smul d intensity
  | Light.directional dir intensity =>
    let d := qclamp (Vec3.dot inter.normal dir) 0 1
    Vec3.smul d intensity
  | Light.hdri sample => sample inter.normal

/-- Embeds `Light::lighting`, which just delegates to `diffuse`. -/
def Light.lighting (sq : ℚ → ℚ) (l : Light) (ray : Ray) (inter : Inter) : Vec3 :=
  l.diffuse sq ray inter

/-- Embeds `Lights::lighting` (src/light.rs lines 22-26): sum every light's
contribution. -/
def Lights.lighting (sq : ℚ → ℚ) (lights : List Light) (ray : Ray) (inter : Inter) :
    Lighting :=
  ⟨Vec3.vsum (lights.map (fun l => l.lighting sq ray inter))⟩

/-- Embeds `MetaBall` over `ℚ` for the scene layer. -/
structure MetaBall where
  material_ref : Option ℕ
  center : Vec3
  power : ℚ
deriving DecidableEq

namespace MetaBall

/-- Embeds `MetaBall::strength_at`: `power / (point - center).length()`. -/
def strength_at (sq : ℚ → ℚ) (ball : MetaBall) (point : Vec3) : ℚ :=
  ball.power / Vec3.length sq (Vec3.sub point ball.center)

/-- Embeds `MetaBall::force_at`: `(power / diff.length()) * diff.normalize()`
with `diff = center - point`. -/
def force_at (sq : ℚ → ℚ) (ball : MetaBall) (point : Vec3) : Vec3 :=
  let diff := Vec3.sub ball.center point
  let strength := ball.power / Vec3.length sq diff
  Vec3.smul strength (Vec3.normalize sq diff)

/-- Embeds `MetaBall::color_at` (src/object.rs lines 231-239): a ball with a
material contributes that material's color scaled by the ball's strength at
the hit point; a ball without a material contributes nothing. -/
def color_at (sq : ℚ → ℚ) (materials : List Material) (ball : MetaBall)
    (inter : Inter) (lighting : Lighting) : Option Vec3 :=
  ball.material_ref.map (fun material_ref =>
    Vec3.smul (ball.strength_at sq inter.point)
      ((Materials.get materials material_ref).color_at inter lighting))

end MetaBall

/-- Rust `Iterator::reduce`: left fold whose initial accumulator is the first
element; `none` on an empty list. -/
def listReduce (f : α → α → α) : List α → Option α
  | [] => none
  | x :: xs => some (xs.foldl f x)

/-- The option-merging closure of `MetaBalls::color_at` (src/object.rs lines
203-206): add two present colors, otherwise keep whichever is present. -/
def optMerge (l r : Option Vec3) : Option Vec3 :=
  match l, r with
  | some a, some b => some (Vec3.add a b)
  | a, b => a.or b

/-- Embeds `MetaBalls` over `ℚ` for the scene layer. -/
structure MetaBalls where
  balls : List MetaBall
  threshold : ℚ
deriving DecidableEq

namespace MetaBalls

/-- Embeds `MetaBalls::force_at`: total field value at a point. -/
def force_at (sq : ℚ → ℚ) (mb : MetaBalls) (point : Vec3) : ℚ :=
  (mb.balls.map (fun ball => ball.strength_at sq point)).foldl (· + ·) 0

/-- The march loop of `MetaBalls::intersect_in` over `ℚ`, with fuel (outer
`none` = fuel exhausted).  This is the same loop as `MetaBallsF.march`; over
`ℚ` a zero division yields `0` instead of an IEEE special value, which no
claim settled against this layer relies on. -/
def march (sq : ℚ → ℚ) (mb : MetaBalls) (ray : Ray) (max_t power : ℚ) :
    ℕ → ℚ → Option (Option ℚ)
  | 0, _ => none
  | fuel + 1, t =>
    if t < max_t then
      let point := ray.at t
      let force := mb.force_at sq point
      if |force - mb.threshold| < 1 / 1000 then some (some t)
      else march sq mb ray max_t power fuel (t + (power / force - power / mb.threshold))
    else some none

/-- Embeds `MetaBalls::intersect_in` over `ℚ` (fuel exhaustion folded to a
miss for the scene-level scan). -/
def intersect_in (sq : ℚ → ℚ) (fuel : ℕ) (mb : MetaBalls) (ray : Ray) (max_t : ℚ) :
    Option ℚ :=
  (march sq mb ray max_t ((mb.balls.map MetaBall.power).foldl (· + ·) 0) fuel 0).join

/-- Embeds `MetaBalls::normal_at`: negated, normalized sum of the balls'
force vectors. -/
def normal_at (sq : ℚ → ℚ) (mb : MetaBalls) (point : Vec3) : Vec3 :=
  Vec3.neg (Vec3.normalize sq (Vec3.vsum (mb.balls.map (fun ball => ball.force_at sq point))))

/-- Embeds `MetaBalls::color_at` (src/object.rs lines 199-209): merge the
per-ball optional contributions with `optMerge`, flatten, and divide a present
sum by the total field value at the hit point. -/
def color_at (sq : ℚ → ℚ) (materials : List Material) (mb : MetaBalls)
    (inter : Inter) (lighting : Lighting) : Option Vec3 :=
  ((listReduce optMerge (mb.balls.map (fun ball =>
      ball.color_at sq materials inter lighting))).join).map
    (fun color => Vec3.divs color (mb.force_at sq inter.point))

end MetaBalls

/-- Embeds the tagged union `Shape`. -/
inductive Shape where
  | sphere : Sphere → Shape
  | metaBalls : MetaBalls → Shape

/-- Embeds `Shape::intersect_in` (dispatch on the variant). -/
def Shape.intersect_in (sq : ℚ → ℚ) (fuel : ℕ) (s : Shape) (ray : Ray) (max_t : ℚ) :
    Option ℚ :=
  match s with
  | Shape.sphere sp => sp.intersect_in sq ray max_t
  | Shape.metaBalls mb => mb.intersect_in sq fuel ray max_t

/-- Embeds `Shape::normal_at` (dispatch on the variant). -/
def Shape.normal_at (sq : ℚ → ℚ) (s : Shape) (point : Vec3) : Vec3 :=
  match s with
  | Shape.sphere sp => sp.normal_at sq point
  | Shape.metaBalls mb => mb.normal_at sq point

/-- Embeds `Shape::color_at` (src/object.rs lines 120-125): a sphere defines
no coloring of its own, metaballs delegate to their compositing. -/
def Shape.color_at (sq : ℚ → ℚ) (materials : List Material) (s : Shape)
    (inter : Inter) (lighting : Lighting) : Option Vec3 :=
  match s with
  | Shape.sphere _ => none
  | Shape.metaBalls mb => mb.color_at sq materials inter lighting

/-- Embeds `Object { material_ref, shape }`. -/
structure Object where
  material_ref : Option ℕ
  shape : Shape

/-- Embeds `Object::intersect_in`. -/
def Object.intersect_in (sq : ℚ → ℚ) (fuel : ℕ) (o : Object) (ray : Ray) (max_t : ℚ) :
    Option ℚ :=
  o.shape.intersect_in sq fuel ray max_t

/-- Embeds `Object::normal_at`. -/
def Object.normal_at (sq : ℚ → ℚ) (o : Object) (point : Vec3) : Vec3 :=
  o.shape.normal_at sq point

/-- Embeds `Object::color_at` (src/object.rs lines 83-96): the shape's own
coloring takes precedence, else the object's material reference, else the
default material. -/
def Object.color_at (sq : ℚ → ℚ) (materials : List Material) (o : Object)
    (inter : Inter) (lighting : Lighting) : Vec3 :=
  ((o.shape.color_at sq materials inter lighting).or
    (o.material_ref.map (fun material_ref =>
      (Materials.get materials material_ref).color_at inter lighting))).getD
    (DEFAULT_MATERIAL.color_at inter lighting)

/-- One comparison step of Rust `Iterator::min_by` on hit records compared by
`t`: keep the accumulator unless the new record is strictly nearer (so the
first record with the globally smallest `t` is kept). -/
def minStep (acc : Option Inter) (i : Inter) : Option Inter :=
  match acc with
  | none => some i
  | some a => if i.t < a.t then some i else some a

/-- The fold of Rust `Iterator::min_by` on hit records compared by `t` (the
source's `partial_cmp ... expect` never encounters incomparable values over
`ℚ`, where every value is well-ordered). -/
def minInterBy (l : List Inter) : Option Inter :=
  l.foldl minStep none

/-- The per-object candidate hit records of `Objects::intersect`
(src/object.rs lines 35-48): enumerate the objects, keep those the ray hits,
and build the full hit record for each. -/
def Objects.candidates (sq : ℚ → ℚ) (fuel : ℕ) (objects : List Object) (ray : Ray)
    (max_t : ℚ) : List Inter :=
  (objects.enum).filterMap (fun io =>
    (io.2.intersect_in sq fuel ray max_t).map (fun t =>
      let point := ray.at t
      ⟨io.1, t, point, io.2.normal_at sq point⟩))

/-- Embeds `Objects::intersect` (src/object.rs lines 34-50): nearest candidate
by `t`. -/
def Objects.intersect (sq : ℚ → ℚ) (fuel : ℕ) (objects : List Object) (ray : Ray)
    (max_t : ℚ) : Option Inter :=
  minInterBy (Objects.candidates sq fuel objects ray max_t)

/-!
## Quadratic data of the sphere intersection

Named forms of the `let` bindings of `Sphere::intersect_in`, for stating
theorems about it. -/

/-- The quadratic coefficient `a = |dir|²` of the sphere intersection. -/
def Sphere.quad_a (_s : Sphere) (ray : Ray) : ℚ := ray.dir.length_squared

/-- The quadratic coefficient `b = 2 (origin − center) · dir`. -/
def Sphere.quad_b (s : Sphere) (ray : Ray) : ℚ :=
  2 * Vec3.dot (Vec3.sub ray.pos s.center) ray.dir

/-- The quadratic coefficient `c = |origin − center|² − radius²`. -/
def Sphere.quad_c (s : Sphere) (ray : Ray) : ℚ :=
  (Vec3.sub ray.pos s.center).length_squared - s.radius * s.radius

/-- The discriminant `b² − 4 a c`. -/
def Sphere.disc (s : Sphere) (ray : Ray) : ℚ :=
  s.quad_b ray * s.quad_b ray - 4 * s.quad_a ray * s.quad_c ray

/-- The root `(−b − √disc) / (2a)` preferred by `Sphere::intersect_in`. -/
def Sphere.root1 (sq : ℚ → ℚ) (s : Sphere) (ray : Ray) : ℚ :=
  (-s.quad_b ray - sq (s.disc ray)) / (2 * s.quad_a ray)

/-- The fallback root `(−b + √disc) / (2a)`. -/
def Sphere.root2 (sq : ℚ → ℚ) (s : Sphere) (ray : Ray) : ℚ :=
  (-s.quad_b ray + sq (s.disc ray)) / (2 * s.quad_a ray)

/-!
## Camera projection

The pixel-to-ray projection of src/ray.rs; `tn` abstracts `f32::tan`. -/

/-- Embeds `Output { width, height, escape }`. -/
structure Output where
  width : ℕ
  height : ℕ
  escape : ℚ

/-- Embeds `Output::aspect_ratio`: `width as f32 / height as f32`. -/
def Output.aspect (o : Output) : ℚ := (o.width : ℚ) / (o.height : ℚ)

/-- Embeds `Camera { pos, dir, up, fov }`. -/
structure Camera where
  pos : Vec3
  dir : Vec3
  up : Vec3
  fov : ℚ

/-- Embeds `Camera::right`: `dir.cross(up).normalize()`. -/
def Camera.right (sq : ℚ → ℚ) (c : Camera) : Vec3 :=
  Vec3.normalize sq (Vec3.cross c.dir c.up)

/-- Embeds `PixelRay { x, y, ray }`. -/
structure PixelRay where
  x : ℕ
  y : ℕ
  ray : Ray
deriving DecidableEq

/-- Embeds the `ProjectIter` iterator state. -/
structure ProjectIter where
  cam : Camera
  out : Output
  screen_down : Vec3
  screen_right : Vec3
  x : ℕ
  y : ℕ

/-- Embeds `ProjectIter::new` (src/ray.rs lines 57-71): precompute
`screen_down = -up * tan(fov)` and `screen_right = right * tan(fov) * aspect`,
and start at pixel `(0, 0)`. -/
def ProjectIter.new (sq tn : ℚ → ℚ) (cam : Camera) (out : Output) : ProjectIter :=
  { cam := cam
    out := out
    screen_down := Vec3.smul (tn cam.fov) (Vec3.neg cam.up)
    screen_right := Vec3.smul out.aspect (Vec3.smul (tn cam.fov) (Camera.right sq cam))
    x := 0
    y := 0 }

/-- Embeds `ProjectIter::next` (src/ray.rs lines 76-100) as a functional
iterator step: `none` past the last row, otherwise the pixel ray sampled at
the pixel center together with the successor state (`x` advances fastest and
wraps into `y`). -/
def ProjectIter.next (sq : ℚ → ℚ) (it : ProjectIter) : Option (PixelRay × ProjectIter) :=
  if it.y ≥ it.out.height then none
  else
    let u := ((it.x : ℚ) + 1 / 2) / (it.out.width : ℚ)
    let v := ((it.y : ℚ) + 1 / 2) / (it.out.height : ℚ)
    let dir := Vec3.add (Vec3.add it.cam.dir (Vec3.smul (u - 1 / 2) it.screen_right))
      (Vec3.smul (v - 1 / 2) it.screen_down)
    let px : PixelRay := ⟨it.x, it.y, ⟨it.cam.pos, Vec3.normalize sq dir⟩⟩
    let x2 := it.x + 1
    let it2 := if x2 ≥ it.out.width then { it with x := 0, y := it.y + 1 }
      else { it with x := x2 }
    some (px, it2)

/-- Collect up to `fuel` items from the projection iterator (the lazy pixel
scan made terminating by explicit fuel; fuel at least the pixel count yields
the full finite sequence). -/
def ProjectIter.run (sq : ℚ → ℚ) : ℕ → ProjectIter → List PixelRay
  | 0, _ => []
  | fuel + 1, it =>
    match it.next sq with
    | none => []
    | some (px, it2) => px :: ProjectIter.run sq fuel it2

/-- Embeds `Camera::project`: a fresh projection iterator over the output. -/
def Camera.project (sq tn : ℚ → ℚ) (c : Camera) (out : Output) : ProjectIter :=
  ProjectIter.new sq tn c out

/-- The pixel ray of pixel `(x, y)` as the specification formula states it:
sampled at the pixel center `u = (x+1/2)/width`, `v = (y+1/2)/height`, with
direction `normalize(dir + right*tan(fov)*aspect*(u-1/2) - up*tan(fov)*(v-1/2))`. -/
def specPixelRay (sq tn : ℚ → ℚ) (cam : Camera) (out : Output) (x y : ℕ) : PixelRay :=
  ⟨x, y,
    ⟨cam.pos,
      Vec3.normalize sq
        (Vec3.add
          (Vec3.add cam.dir
            (Vec3.smul (tn cam.fov * out.aspect * (((x : ℚ) + 1 / 2) / (out.width : ℚ) - 1 / 2))
              (Camera.right sq cam)))
          (Vec3.neg
            (Vec3.smul (tn cam.fov * (((y : ℚ) + 1 / 2) / (out.height : ℚ) - 1 / 2))
              cam.up)))⟩⟩

/-- Square root of a nonnegative rational square, used to instantiate the
abstract square-root parameter on concrete inputs whose intermediate values are
perfect squares (where the `f32` square root of the source is also exact).
Mathlib's computable `Rat.sqrt` provides the evaluator; this lemma is its
specification on squares. -/
theorem ratSqrt_mul_self (a : ℚ) (h : 0 ≤ a) : Rat.sqrt (a * a) = a := by
  rw [Rat.sqrt_eq, abs_of_nonneg h]

theorem Vec3.add_comm (a b : Vec3) : Vec3.add a b = Vec3.add b a := by
  simp only [Vec3.add, Vec3.mk.injEq]
  exact ⟨by ring, by ring, by ring⟩

theorem Vec3.zero_add (a : Vec3) : Vec3.add Vec3.zero a = a := by
  simp [Vec3.add, Vec3.zero]

theorem Vec3.add_assoc (a b c : Vec3) :
    Vec3.add (Vec3.add a b) c = Vec3.add a (Vec3.add b c) := by
  simp only [Vec3.add, Vec3.mk.injEq]
  exact ⟨by ring, by ring, by ring⟩

theorem Sphere.intersect_in_eq (sq : ℚ → ℚ) (s : Sphere) (ray : Ray) (max_t : ℚ) :
    s.intersect_in sq ray max_t =
      if s.disc ray < 0 then none
      else if s.root1 sq ray > 0 then
        (if s.root1 sq ray < max_t then some (s.root1 sq ray) else none)
      else if s.root2 sq ray < max_t then some (s.root2 sq ray) else none := rfl

/-- A returned sphere hit distance is below the escape distance (it is read
off the branches of `Sphere::intersect_in`, both of which test `< max_t`). -/
theorem Sphere.some_lt_max (sq : ℚ → ℚ) (s : Sphere) (ray : Ray) (max_t t : ℚ)
    (h : s.intersect_in sq ray max_t = some t) : t < max_t := by
  rw [Sphere.intersect_in_eq] at h
  split_ifs at h with h1 h2 h3 h4 <;> simp_all

/-- A finished metaball march only reports a hit distance below the escape
distance: `Some t` is produced under the loop guard `t < max_t`. -/
theorem MetaBallsF.march_some_lt_max (sq : ℚ → ℚ) (mb : MetaBallsF) (ray : RayF)
    (max_t power : FQ) (fuel : ℕ) (t0 t : FQ)
    (h : MetaBallsF.march sq mb ray max_t power fuel t0 = some (some t)) :
    FQ.lt t max_t = true := by
  induction fuel generalizing t0 with
  | zero => simp [MetaBallsF.march] at h
  | succ n ih =>
    rw [MetaBallsF.march] at h
    by_cases hg : FQ.lt t0 max_t = true
    · rw [if_pos hg] at h
      simp only at h
      by_cases hb : FQ.lt (FQ.abs (FQ.sub
          (MetaBallsF.force_at sq mb (Vec3F.add ray.pos (Vec3F.smul t0 ray.dir)))
          mb.threshold)) (FQ.fin (1 / 1000)) = true
      · rw [if_pos hb] at h
        simp only [Option.some.injEq] at h
        rw [← h]
        exact hg
      · rw [if_neg hb] at h
        exact ih _ h
    · rw [if_neg hg] at h
      simp at h

/-- C1 counterexample: a unit sphere at the origin entirely behind a ray
starting at `(5,0,0)` and pointing away along `+x`.  Both quadratic roots are
negative (`-6` and `-4`); the fallback branch of `Sphere::intersect_in`
returns the larger root `-4` without checking its sign, so the returned hit
distance is not in `(0, max_t)` even though no surface lies ahead of the
ray. -/
theorem claim_c1_counterexample :
    Sphere.intersect_in Rat.sqrt ⟨⟨0, 0, 0⟩, 1⟩ ⟨⟨5, 0, 0⟩, ⟨1, 0, 0⟩⟩ 10 = some (-4) ∧
    ¬ (0 < (-4 : ℚ)) := by
  have h4 : Rat.sqrt 4 = 2 := by norm_num
  constructor
  · simp only [Sphere.intersect_in, Vec3.sub, Vec3.dot, Vec3.length_squared]
    norm_num [h4]
  · norm_num

/-- C1 (amended): whenever `Sphere::intersect_in` or `MetaBalls::intersect_in`
returns `Some t`, the hit distance satisfies `t < max_t`; the lower bound
`0 < t` does not hold in general (the sphere's fallback root and the metaball
march can return `t ≤ 0`). -/
theorem claim_c1_hit_below_escape :
    (∀ (sq : ℚ → ℚ) (s : Sphere) (ray : Ray) (max_t t : ℚ),
      s.intersect_in sq ray max_t = some t → t < max_t) ∧
    (∀ (sq : ℚ → ℚ) (mb : MetaBallsF) (ray : RayF) (max_t : FQ) (fuel : ℕ) (t : FQ),
      MetaBallsF.intersect_in sq mb ray max_t fuel = some (some t) →
        FQ.lt t max_t = true) :=
  ⟨Sphere.some_lt_max, fun sq mb ray max_t fuel t h =>
    MetaBallsF.march_some_lt_max sq mb ray max_t _ fuel (FQ.fin 0) t h⟩

/-- C1 witness: the bound `t < max_t` evaluated at two concrete hits — a ray
from `(5,0,0)` toward a unit sphere at the origin (hit at `t = 4 < 10`), and
a metaball system whose field at the ray origin already equals the threshold
(hit at `t = 0 < 5`). -/
theorem claim_c1_witness :
    ((4 : ℚ) < 10) ∧ (FQ.lt (FQ.fin 0) (FQ.fin 5) = true) := by
  have h4 : Rat.sqrt 4 = 2 := by norm_num
  have h1 : Rat.sqrt 1 = 1 := by norm_num
  have hs : Sphere.intersect_in Rat.sqrt ⟨⟨0, 0, 0⟩, 1⟩ ⟨⟨5, 0, 0⟩, ⟨-1, 0, 0⟩⟩ 10 =
      some 4 := by
    simp only [Sphere.intersect_in, Vec3.sub, Vec3.dot, Vec3.length_squared]
    norm_num [h4]
  have hm : MetaBallsF.intersect_in Rat.sqrt
      ⟨[⟨none, ⟨FQ.fin 0, FQ.fin 0, FQ.fin 0⟩, FQ.fin 1⟩], FQ.fin 1⟩
      ⟨⟨FQ.fin 1, FQ.fin 0, FQ.fin 0⟩, ⟨FQ.fin 1, FQ.fin 0, FQ.fin 0⟩⟩ (FQ.fin 5) 1 =
      some (some (FQ.fin 0)) := by
    norm_num [MetaBallsF.intersect_in, MetaBallsF.march, MetaBallsF.force_at,
      MetaBallF.strength_at, Vec3F.add, Vec3F.smul, Vec3F.sub, Vec3F.length, Vec3F.dot,
      FQ.fsum, FQ.add, FQ.mul, FQ.sub, FQ.neg, FQ.div, FQ.abs, FQ.lt, h1]
  exact ⟨claim_c1_hit_below_escape.1 Rat.sqrt _ _ 10 4 hs,
    claim_c1_hit_below_escape.2 Rat.sqrt _ _ (FQ.fin 5) 1 (FQ.fin 0) hm⟩

/-- C3: `Sphere::intersect_in` returns `none` on a negative discriminant;
a returned hit is below `max_t` and is the root `(−b − √disc)/(2a)` when that
root is positive, else the root `(−b + √disc)/(2a)`; the preferred root is
indeed the smaller one (given a valid square root of the discriminant and
`a > 0`); and a ray whose perpendicular offset from the center exceeds the
radius (stated multiplied through by `a > 0`) yields `none`. -/
theorem claim_c3_sphere_root_selection (sq : ℚ → ℚ) (s : Sphere) (ray : Ray) (max_t : ℚ) :
    (s.disc ray < 0 → s.intersect_in sq ray max_t = none) ∧
    (∀ t, s.intersect_in sq ray max_t = some t →
      t < max_t ∧
      ((0 < s.root1 sq ray ∧ t = s.root1 sq ray) ∨
       (s.root1 sq ray ≤ 0 ∧ t = s.root2 sq ray))) ∧
    (0 ≤ sq (s.disc ray) → 0 < s.quad_a ray → s.root1 sq ray ≤ s.root2 sq ray) ∧
    (0 < s.quad_a ray →
      s.radius * s.radius * s.quad_a ray <
        (Vec3.sub ray.pos s.center).length_squared * s.quad_a ray -
          Vec3.dot (Vec3.sub ray.pos s.center) ray.dir *
            Vec3.dot (Vec3.sub ray.pos s.center) ray.dir →
      s.intersect_in sq ray max_t = none) := by
  refine ⟨?_, ?_, ?_, ?_⟩
  · intro hd
    rw [Sphere.intersect_in_eq, if_pos hd]
  · intro t h
    rw [Sphere.intersect_in_eq] at h
    split_ifs at h with h1 h2 h3 h4
    · simp only [Option.some.injEq] at h
      exact ⟨h ▸ h3, Or.inl ⟨h2, h.symm⟩⟩
    · simp only [Option.some.injEq] at h
      exact ⟨h ▸ h4, Or.inr ⟨le_of_not_lt h2, h.symm⟩⟩
  · intro hsq ha
    unfold Sphere.root1 Sphere.root2
    have h2a : (0 : ℚ) < 2 * s.quad_a ray := by linarith
    rw [div_le_div_iff_of_pos_right h2a]
    linarith
  · intro ha hoff
    rw [Sphere.intersect_in_eq, if_pos]
    unfold Sphere.disc Sphere.quad_b Sphere.quad_c
    ring_nf at hoff ⊢
    linarith

/-- C3 witness: a ray offset `5 > 1` sideways from a unit sphere misses
(`none`), and at a hitting configuration the preferred root is the smaller
one. -/
theorem claim_c3_witness :
    Sphere.intersect_in Rat.sqrt ⟨⟨0, 0, 0⟩, 1⟩ ⟨⟨0, 5, 0⟩, ⟨1, 0, 0⟩⟩ 10 = none ∧
    Sphere.root1 Rat.sqrt ⟨⟨0, 0, 0⟩, 1⟩ ⟨⟨5, 0, 0⟩, ⟨-1, 0, 0⟩⟩ ≤
      Sphere.root2 Rat.sqrt ⟨⟨0, 0, 0⟩, 1⟩ ⟨⟨5, 0, 0⟩, ⟨-1, 0, 0⟩⟩ := by
  constructor
  · exact (claim_c3_sphere_root_selection Rat.sqrt _ _ 10).2.2.2
      (by norm_num [Sphere.quad_a, Vec3.length_squared, Vec3.dot])
      (by norm_num [Sphere.quad_a, Vec3.length_squared, Vec3.sub, Vec3.dot])
  · exact (claim_c3_sphere_root_selection Rat.sqrt _ _ 10).2.2.1
      (Rat.sqrt_nonneg _)
      (by norm_num [Sphere.quad_a, Vec3.length_squared, Vec3.dot])

theorem FQ.nan_add (x : FQ) : FQ.add FQ.nan x = FQ.nan := by cases x <;> rfl

theorem FQ.add_nan (x : FQ) : FQ.add x FQ.nan = FQ.nan := by cases x <;> rfl

theorem FQ.nan_lt (y : FQ) : FQ.lt FQ.nan y = false := by cases y <;> rfl

theorem FQ.inf_lt (y : FQ) : FQ.lt FQ.inf y = false := by cases y <;> rfl

theorem FQ.le_fin_cases (q : ℚ) (x : FQ) (h : FQ.le (FQ.fin q) x = true) :
    (∃ s, x = FQ.fin s ∧ q ≤ s) ∨ x = FQ.inf := by
  cases x with
  | fin s => exact Or.inl ⟨s, rfl, by simpa [FQ.le] using h⟩
  | inf => exact Or.inr rfl
  | ninf => simp [FQ.le] at h
  | nan => simp [FQ.le] at h

/-- If the loop guard fails, one more iteration of the march reports a miss. -/
theorem MetaBallsF.march_exit (sq : ℚ → ℚ) (mb : MetaBallsF) (ray : RayF)
    (max_t power : FQ) (fuel : ℕ) (t : FQ) (h : FQ.lt t max_t = false) :
    MetaBallsF.march sq mb ray max_t power (fuel + 1) t = some none := by
  rw [MetaBallsF.march, if_neg]
  simp [h]

/-- If from every finite marching position the computed step is at least a
fixed positive `ε`, the march from `t₀` finishes within `(m − t₀)/ε` further
iterations (it either reports a hit, walks past `max_t = m`, or jumps to
`+∞` and exits at the next guard). -/
theorem MetaBallsF.march_terminates (sq : ℚ → ℚ) (mb : MetaBallsF) (ray : RayF)
    (power : FQ) (m ε : ℚ) (_hε : 0 < ε)
    (H : ∀ q : ℚ, FQ.le (FQ.fin ε) (MetaBallsF.stepAt sq mb ray power (FQ.fin q)) = true) :
    ∀ (fuel : ℕ) (t0 : ℚ), m - t0 ≤ ε * fuel →
      MetaBallsF.march sq mb ray (FQ.fin m) power (fuel + 1) (FQ.fin t0) ≠ none := by
  intro fuel
  induction fuel with
  | zero =>
    intro t0 hb
    rw [MetaBallsF.march, if_neg]
    · simp
    · simp only [FQ.lt, decide_eq_true_eq]
      push_cast at hb
      intro hlt
      linarith
  | succ n ih =>
    intro t0 hb
    rw [MetaBallsF.march]
    by_cases hg : FQ.lt (FQ.fin t0) (FQ.fin m) = true
    · rw [if_pos hg]
      simp only
      by_cases hband : FQ.lt (FQ.abs (FQ.sub
          (MetaBallsF.force_at sq mb (Vec3F.add ray.pos (Vec3F.smul (FQ.fin t0) ray.dir)))
          mb.threshold)) (FQ.fin (1 / 1000)) = true
      · rw [if_pos hband]
        simp
      · rw [if_neg hband]
        rcases FQ.le_fin_cases ε _ (H t0) with ⟨s, hs, hεs⟩ | hs
        · rw [hs]
          have hadd : FQ.add (FQ.fin t0) (FQ.fin s) = FQ.fin (t0 + s) := rfl
          rw [hadd]
          apply ih
          push_cast at hb ⊢
          linarith
        · rw [hs]
          have hadd : FQ.add (FQ.fin t0) FQ.inf = FQ.inf := rfl
          rw [hadd]
          cases n with
          | zero =>
            rw [MetaBallsF.march, if_neg]
            · simp
            · simp [FQ.inf_lt]
          | succ k =>
            rw [MetaBallsF.march, if_neg]
            · simp
            · simp [FQ.inf_lt]
    · rw [if_neg hg]
      simp

/-- C2 counterexample: one metaball of power 1 at the origin with threshold 2,
and a ray starting inside the surface at `(1/4, 0, 0)` pointing along `+x`
with escape distance 1.  All intermediate values are exactly representable in
`f32`, so this model computes exactly what the source computes: the first
step is `1/4 − 1/2 < 0`, the marcher moves backwards through the ball's
center (where the field is `+∞`), and the march finishes with the negative
hit distance `−3/4`.  No minimum positive step is ever applied, refuting the
claimed clamp, the claimed forward progress, and the claimed containment of
hits in the forward range. -/
theorem claim_c2_counterexample :
    MetaBallsF.intersect_in Rat.sqrt
      ⟨[⟨none, ⟨FQ.fin 0, FQ.fin 0, FQ.fin 0⟩, FQ.fin 1⟩], FQ.fin 2⟩
      ⟨⟨FQ.fin (1 / 4), FQ.fin 0, FQ.fin 0⟩, ⟨FQ.fin 1, FQ.fin 0, FQ.fin 0⟩⟩
      (FQ.fin 1) 3 = some (some (FQ.fin (-3 / 4))) ∧
    ((-3 / 4 : ℚ) < 0) := by
  have h16 : Rat.sqrt (1 / 16) = 1 / 4 := by
    have h := ratSqrt_mul_self (1 / 4) (by norm_num)
    norm_num at h
    exact h
  have h14 : Rat.sqrt (1 / 4) = 1 / 2 := by
    have h := ratSqrt_mul_self (1 / 2) (by norm_num)
    norm_num at h
    exact h
  constructor
  · norm_num [MetaBallsF.intersect_in, MetaBallsF.march, MetaBallsF.stepAt,
      MetaBallsF.force_at, MetaBallF.strength_at, Vec3F.add, Vec3F.smul, Vec3F.sub,
      Vec3F.length, Vec3F.dot, FQ.fsum, FQ.add, FQ.mul, FQ.sub, FQ.neg, FQ.div,
      FQ.abs, FQ.lt, h16, h14]
  · norm_num

/-- C2 (amended): the march's step is `power/F − power/threshold` with no
minimum-step clamp, so forward progress is not guaranteed (see the
counterexample); the loop does report a miss as soon as the accumulated `t`
fails `t < max_t`, and the march does terminate whenever every step along the
ray is bounded below by a positive `ε`, within `max_t/ε` iterations. -/
theorem claim_c2_march_step_and_termination :
    (∀ (sq : ℚ → ℚ) (mb : MetaBallsF) (ray : RayF) (max_t power : FQ) (fuel : ℕ) (t : FQ),
      FQ.lt t max_t = false →
        MetaBallsF.march sq mb ray max_t power (fuel + 1) t = some none) ∧
    (∀ (sq : ℚ → ℚ) (mb : MetaBallsF) (ray : RayF) (m ε : ℚ), 0 < ε →
      (∀ q : ℚ, FQ.le (FQ.fin ε)
          (MetaBallsF.stepAt sq mb ray (FQ.fsum (mb.balls.map MetaBallF.power))
            (FQ.fin q)) = true) →
      ∀ fuel : ℕ, m ≤ ε * fuel →
        MetaBallsF.intersect_in sq mb ray (FQ.fin m) (fuel + 1) ≠ none) := by
  refine ⟨MetaBallsF.march_exit, ?_⟩
  intro sq mb ray m ε hε H fuel hm
  unfold MetaBallsF.intersect_in
  exact MetaBallsF.march_terminates sq mb ray _ m ε hε H fuel 0 (by linarith)

/-- C2 witness: the miss-on-guard-failure branch at `t = 7 ≥ max_t = 5`, and
guaranteed termination for a degenerate stationary ray 3 away from a power-1
ball with threshold 1, where every step is exactly `2 ≥ ε = 1` (6 iterations
cover `max_t = 5`). -/
theorem claim_c2_witness :
    MetaBallsF.march Rat.sqrt ⟨[], FQ.fin 1⟩
      ⟨⟨FQ.fin 0, FQ.fin 0, FQ.fin 0⟩, ⟨FQ.fin 1, FQ.fin 0, FQ.fin 0⟩⟩
      (FQ.fin 5) (FQ.fin 0) 1 (FQ.fin 7) = some none ∧
    MetaBallsF.intersect_in Rat.sqrt
      ⟨[⟨none, ⟨FQ.fin 0, FQ.fin 0, FQ.fin 0⟩, FQ.fin 1⟩], FQ.fin 1⟩
      ⟨⟨FQ.fin 3, FQ.fin 0, FQ.fin 0⟩, ⟨FQ.fin 0, FQ.fin 0, FQ.fin 0⟩⟩
      (FQ.fin 5) 6 ≠ none := by
  have h9 : Rat.sqrt 9 = 3 := by norm_num
  constructor
  · exact claim_c2_march_step_and_termination.1 Rat.sqrt _ _ _ _ 0 _
      (by simp only [FQ.lt, decide_eq_true_eq]; norm_num)
  · exact claim_c2_march_step_and_termination.2 Rat.sqrt _ _ 5 1 (by norm_num)
      (fun q => by
        norm_num [MetaBallsF.stepAt, MetaBallsF.force_at, MetaBallF.strength_at,
          Vec3F.add, Vec3F.smul, Vec3F.sub, Vec3F.length, Vec3F.dot, FQ.fsum,
          FQ.add, FQ.mul, FQ.sub, FQ.neg, FQ.div, FQ.le, h9])
      5 (by norm_num)

/-- C10 counterexample: an empty metaball system with threshold `1/2000`
(positive, as the data model requires).  The field is identically zero, so
`|0 − threshold| = 1/2000 < 0.001` passes the tolerance test on the very
first iteration and the march returns a hit at `t = 0` instead of `None`,
for any ray and `max_t = 1 > 0`. -/
theorem claim_c10_counterexample :
    MetaBallsF.intersect_in Rat.sqrt ⟨[], FQ.fin (1 / 2000)⟩
      ⟨⟨FQ.fin 0, FQ.fin 0, FQ.fin 0⟩, ⟨FQ.fin 1, FQ.fin 0, FQ.fin 0⟩⟩
      (FQ.fin 1) 1 = some (some (FQ.fin 0)) ∧
    (some (some (FQ.fin 0)) ≠ (some none : Option (Option FQ))) := by
  constructor
  · norm_num [MetaBallsF.intersect_in, MetaBallsF.march, MetaBallsF.force_at, FQ.fsum,
      FQ.add, FQ.sub, FQ.neg, FQ.abs, FQ.lt, abs_of_nonneg]
  · simp

/-- C10 (amended): on an empty ball list whose threshold is at least `0.001`
away from the zero field value, the march computes total power 0 and field 0,
the step `0/0 − 0/threshold` is NaN, the accumulated `t` becomes NaN, the
loop guard `t < max_t` then fails, and `intersect_in` reports a miss within
two iterations — for every ray, every `max_t`, and every square root. -/
theorem claim_c10_empty_balls_miss (sq : ℚ → ℚ) (thr : FQ) (ray : RayF) (max_t : FQ)
    (hthr : FQ.lt (FQ.abs (FQ.sub (FQ.fin 0) thr)) (FQ.fin (1 / 1000)) = false) :
    MetaBallsF.intersect_in sq ⟨[], thr⟩ ray max_t 2 = some none := by
  have hforce : ∀ p, MetaBallsF.force_at sq ⟨[], thr⟩ p = FQ.fin 0 := fun p => by
    simp [MetaBallsF.force_at, FQ.fsum]
  have hstep : ∀ t, MetaBallsF.stepAt sq ⟨[], thr⟩ ray (FQ.fin 0) t = FQ.nan := fun t => by
    simp only [MetaBallsF.stepAt, hforce]
    have h00 : FQ.div (FQ.fin 0) (FQ.fin 0) = FQ.nan := by norm_num [FQ.div]
    rw [h00]
    simp only [FQ.sub]
    exact FQ.nan_add _
  unfold MetaBallsF.intersect_in
  rw [show FQ.fsum (List.map MetaBallF.power ([] : List MetaBallF)) = FQ.fin 0 from rfl,
    MetaBallsF.march]
  by_cases hg : FQ.lt (FQ.fin 0) max_t = true
  · rw [if_pos hg]
    simp only [hforce, hstep, FQ.add_nan]
    rw [if_neg ?hb, MetaBallsF.march, if_neg (by simp [FQ.nan_lt])]
    case hb =>
      rw [hthr]
      simp
  · rw [if_neg hg]

/-- C10 witness: the amended statement evaluated at threshold 1 (away from
the tolerance band around 0) and a concrete ray. -/
theorem claim_c10_witness :
    MetaBallsF.intersect_in Rat.sqrt ⟨[], FQ.fin 1⟩
      ⟨⟨FQ.fin 0, FQ.fin 0, FQ.fin 0⟩, ⟨FQ.fin 1, FQ.fin 0, FQ.fin 0⟩⟩
      (FQ.fin 1) 2 = some none :=
  claim_c10_empty_balls_miss Rat.sqrt (FQ.fin 1) _ (FQ.fin 1)
    (by norm_num [FQ.sub, FQ.neg, FQ.add, FQ.abs, FQ.lt])

theorem minStep_none (i : Inter) : minStep none i = some i := rfl

theorem minStep_some (a i : Inter) :
    minStep (some a) i = if i.t < a.t then some i else some a := rfl

theorem foldl_minStep_ne_none (l : List Inter) :
    ∀ a : Inter, l.foldl minStep (some a) ≠ none := by
  induction l with
  | nil => simp
  | cons x xs ih =>
    intro a
    rw [List.foldl_cons, minStep_some]
    split_ifs
    · exact ih x
    · exact ih a

theorem minInterBy_eq_none_iff (l : List Inter) : minInterBy l = none ↔ l = [] := by
  cases l with
  | nil => simp [minInterBy]
  | cons x xs =>
    simp only [minInterBy, List.foldl_cons, minStep_none]
    exact ⟨fun h => absurd h (foldl_minStep_ne_none xs x), fun h => by simp at h⟩

theorem foldl_minStep_spec (l : List Inter) :
    ∀ (acc : Option Inter) (a : Inter), l.foldl minStep acc = some a →
      (acc = some a ∨ a ∈ l) ∧ (∀ b ∈ l, a.t ≤ b.t) ∧
      (∀ c, acc = some c → a.t ≤ c.t) := by
  induction l with
  | nil =>
    intro acc a h
    simp only [List.foldl_nil] at h
    refine ⟨Or.inl h, by simp, fun c hc => ?_⟩
    rw [h] at hc
    injection hc with hc
    rw [hc]
  | cons x xs ih =>
    intro acc a h
    rw [List.foldl_cons] at h
    obtain ⟨h1, h2, h3⟩ := ih (minStep acc x) a h
    cases acc with
    | none =>
      rw [minStep_none] at h1 h3
      refine ⟨Or.inr ?_, fun b hb => ?_, fun c hc => by simp at hc⟩
      · rcases h1 with h1 | h1
        · injection h1 with h1
          rw [← h1]
          exact List.mem_cons_self x xs
        · exact List.mem_cons_of_mem x h1
      · rcases List.mem_cons.mp hb with hb | hb
        · rw [hb]
          exact h3 x rfl
        · exact h2 b hb
    | some m =>
      rw [minStep_some] at h1 h3
      by_cases hlt : x.t < m.t
      · rw [if_pos hlt] at h1 h3
        refine ⟨Or.inr ?_, fun b hb => ?_, fun c hc => ?_⟩
        · rcases h1 with h1 | h1
          · injection h1 with h1
            rw [← h1]
            exact List.mem_cons_self x xs
          · exact List.mem_cons_of_mem x h1
        · rcases List.mem_cons.mp hb with hb | hb
          · rw [hb]
            exact h3 x rfl
          · exact h2 b hb
        · injection hc with hc
          rw [← hc]
          exact le_trans (h3 x rfl) (le_of_lt hlt)
      · rw [if_neg hlt] at h1 h3
        refine ⟨?_, fun b hb => ?_, fun c hc => ?_⟩
        · rcases h1 with h1 | h1
          · exact Or.inl h1
          · exact Or.inr (List.mem_cons_of_mem x h1)
        · rcases List.mem_cons.mp hb with hb | hb
          · rw [hb]
            exact le_trans (h3 m rfl) (le_of_not_lt hlt)
          · exact h2 b hb
        · injection hc with hc
          rw [← hc]
          exact h3 m rfl

theorem minInterBy_spec (l : List Inter) (a : Inter) (h : minInterBy l = some a) :
    a ∈ l ∧ ∀ b ∈ l, a.t ≤ b.t := by
  obtain ⟨h1, h2, _⟩ := foldl_minStep_spec l none a h
  rcases h1 with h1 | h1
  · simp at h1
  · exact ⟨h1, h2⟩

theorem mem_candidates_iff (sq : ℚ → ℚ) (fuel : ℕ) (objects : List Object) (ray : Ray)
    (max_t : ℚ) (i : Inter) :
    i ∈ Objects.candidates sq fuel objects ray max_t ↔
      ∃ (k : ℕ) (o : Object) (t : ℚ), objects[k]? = some o ∧
        o.intersect_in sq fuel ray max_t = some t ∧
        i = ⟨k, t, ray.at t, o.normal_at sq (ray.at t)⟩ := by
  unfold Objects.candidates
  rw [List.mem_filterMap]
  constructor
  · rintro ⟨⟨k, o⟩, hmem, hf⟩
    rw [Option.map_eq_some'] at hf
    obtain ⟨t, ht, hi⟩ := hf
    exact ⟨k, o, t, (List.mk_mem_enum_iff_getElem?).mp hmem, ht, hi.symm⟩
  · rintro ⟨k, o, t, hk, ht, hi⟩
    refine ⟨(k, o), (List.mk_mem_enum_iff_getElem?).mpr hk, ?_⟩
    rw [Option.map_eq_some']
    exact ⟨t, ht, hi.symm⟩

/-- C9: every hit record returned by `Objects::intersect` is internally
consistent: its point is `ray.at t`, its object reference indexes an existing
object in the scene list (so the `Objects::get` lookup during shading is in
bounds), and its normal is that object's `normal_at` at the hit point. -/
theorem claim_c9_inter_consistent (sq : ℚ → ℚ) (fuel : ℕ) (objects : List Object)
    (ray : Ray) (max_t : ℚ) (inter : Inter)
    (h : Objects.intersect sq fuel objects ray max_t = some inter) :
    inter.point = ray.at inter.t ∧
    inter.object_ref < objects.length ∧
    ∃ o, objects[inter.object_ref]? = some o ∧
      inter.normal = o.normal_at sq inter.point := by
  obtain ⟨hmem, -⟩ := minInterBy_spec _ _ h
  obtain ⟨k, o, t, hk, -, hi⟩ := (mem_candidates_iff sq fuel objects ray max_t inter).mp hmem
  subst hi
  refine ⟨rfl, ?_, o, hk, rfl⟩
  have := List.getElem?_eq_some.mp hk
  exact this.1

/-- C5: `Objects::intersect` scans all objects and returns the hit record
with the globally smallest `t` among the per-object candidates, or `none`
exactly when no object reports a hit.  (Over the exact-rational model every
candidate `t` is well-ordered by construction, which is the claim's
precondition; the source's `expect` on incomparable floats is unreachable
under it.) -/
theorem claim_c5_nearest_hit (sq : ℚ → ℚ) (fuel : ℕ) (objects : List Object) (ray : Ray)
    (max_t : ℚ) :
    (Objects.intersect sq fuel objects ray max_t = none ↔
      ∀ o ∈ objects, o.intersect_in sq fuel ray max_t = none) ∧
    (∀ inter, Objects.intersect sq fuel objects ray max_t = some inter →
      inter ∈ Objects.candidates sq fuel objects ray max_t ∧
      ∀ c ∈ Objects.candidates sq fuel objects ray max_t, inter.t ≤ c.t) := by
  constructor
  · rw [Objects.intersect, minInterBy_eq_none_iff]
    unfold Objects.candidates
    rw [List.filterMap_eq_nil_iff]
    constructor
    · intro h o ho
      obtain ⟨k, hk⟩ := List.mem_iff_getElem?.mp ho
      have := h (k, o) ((List.mk_mem_enum_iff_getElem?).mpr hk)
      rwa [Option.map_eq_none'] at this
    · intro h p hp
      rw [Option.map_eq_none']
      exact h p.2 (List.getElem?_mem ((List.mk_mem_enum_iff_getElem?).mp hp))
  · intro inter h
    exact minInterBy_spec _ _ h

/-- C9 witness: the record returned for a ray hitting the nearer of two unit
spheres is consistent (point on the ray, index 0 in bounds, sphere normal). -/
theorem claim_c9_witness :
    (⟨0, 4, ⟨-1, 0, 0⟩, ⟨-1, 0, 0⟩⟩ : Inter).point =
      Ray.at ⟨⟨-5, 0, 0⟩, ⟨1, 0, 0⟩⟩ (⟨0, 4, ⟨-1, 0, 0⟩, ⟨-1, 0, 0⟩⟩ : Inter).t ∧
    (⟨0, 4, ⟨-1, 0, 0⟩, ⟨-1, 0, 0⟩⟩ : Inter).object_ref <
      ([⟨none, Shape.sphere ⟨⟨0, 0, 0⟩, 1⟩⟩,
        ⟨none, Shape.sphere ⟨⟨10, 0, 0⟩, 1⟩⟩] : List Object).length ∧
    ∃ o, ([⟨none, Shape.sphere ⟨⟨0, 0, 0⟩, 1⟩⟩,
        ⟨none, Shape.sphere ⟨⟨10, 0, 0⟩, 1⟩⟩] :
          List Object)[(⟨0, 4, ⟨-1, 0, 0⟩, ⟨-1, 0, 0⟩⟩ : Inter).object_ref]? = some o ∧
      (⟨0, 4, ⟨-1, 0, 0⟩, ⟨-1, 0, 0⟩⟩ : Inter).normal =
        o.normal_at Rat.sqrt (⟨0, 4, ⟨-1, 0, 0⟩, ⟨-1, 0, 0⟩⟩ : Inter).point := by
  have h4 : Rat.sqrt 4 = 2 := by norm_num
  have h1 : Rat.sqrt 1 = 1 := by norm_num
  have hEval : Objects.intersect Rat.sqrt 1
      [⟨none, Shape.sphere ⟨⟨0, 0, 0⟩, 1⟩⟩, ⟨none, Shape.sphere ⟨⟨10, 0, 0⟩, 1⟩⟩]
      ⟨⟨-5, 0, 0⟩, ⟨1, 0, 0⟩⟩ 100 = some ⟨0, 4, ⟨-1, 0, 0⟩, ⟨-1, 0, 0⟩⟩ := by
    norm_num [Objects.intersect, Objects.candidates, minInterBy, minStep, List.enum,
      List.enumFrom, List.filterMap_cons, List.filterMap_nil, Option.map_some',
      Option.map_none', Object.intersect_in, Object.normal_at, Shape.intersect_in,
      Shape.normal_at, Sphere.intersect_in, Sphere.normal_at, Vec3.normalize, Vec3.divs,
      Vec3.length, Vec3.sub, Vec3.dot, Vec3.length_squared, Ray.at, Vec3.add, Vec3.smul,
      h4, h1]
  exact claim_c9_inter_consistent Rat.sqrt 1 _ _ 100 _ hEval

/-- C5 witness: with two unit spheres at distances 4 and 14 along the ray,
the returned record (the `t = 4` hit of the first sphere) is indeed among the
candidate hits of the per-object scan. -/
theorem claim_c5_witness :
    (⟨0, 4, ⟨-1, 0, 0⟩, ⟨-1, 0, 0⟩⟩ : Inter) ∈
      Objects.candidates Rat.sqrt 1
        [⟨none, Shape.sphere ⟨⟨0, 0, 0⟩, 1⟩⟩, ⟨none, Shape.sphere ⟨⟨10, 0, 0⟩, 1⟩⟩]
        ⟨⟨-5, 0, 0⟩, ⟨1, 0, 0⟩⟩ 100 := by
  have h4 : Rat.sqrt 4 = 2 := by norm_num
  have h1 : Rat.sqrt 1 = 1 := by norm_num
  have hEval : Objects.intersect Rat.sqrt 1
      [⟨none, Shape.sphere ⟨⟨0, 0, 0⟩, 1⟩⟩, ⟨none, Shape.sphere ⟨⟨10, 0, 0⟩, 1⟩⟩]
      ⟨⟨-5, 0, 0⟩, ⟨1, 0, 0⟩⟩ 100 = some ⟨0, 4, ⟨-1, 0, 0⟩, ⟨-1, 0, 0⟩⟩ := by
    norm_num [Objects.intersect, Objects.candidates, minInterBy, minStep, List.enum,
      List.enumFrom, List.filterMap_cons, List.filterMap_nil, Option.map_some',
      Option.map_none', Object.intersect_in, Object.normal_at, Shape.intersect_in,
      Shape.normal_at, Sphere.intersect_in, Sphere.normal_at, Vec3.normalize, Vec3.divs,
      Vec3.length, Vec3.sub, Vec3.dot, Vec3.length_squared, Ray.at, Vec3.add, Vec3.smul,
      h4, h1]
  exact ((claim_c5_nearest_hit Rat.sqrt 1 _ _ 100).2 _ hEval).1

/-- C7: `Object::color_at` resolves in a fixed order — a shape-defined color
wins; else a present material reference resolves through the material list;
else the default `Normal` material applies, which maps the hit normal through
`(c+1)/2` per channel and ignores the accumulated lighting entirely, so an
object with no material and a colorless shape shades exactly like the
explicit `Normal` material at the same hit. -/
theorem claim_c7_color_resolution (sq : ℚ → ℚ) (materials : List Material) (o : Object)
    (inter : Inter) (lighting : Lighting) :
    (∀ c, o.shape.color_at sq materials inter lighting = some c →
      o.color_at sq materials inter lighting = c) ∧
    (o.shape.color_at sq materials inter lighting = none →
      ∀ mr, o.material_ref = some mr →
        o.color_at sq materials inter lighting =
          (Materials.get materials mr).color_at inter lighting) ∧
    (o.shape.color_at sq materials inter lighting = none → o.material_ref = none →
      o.color_at sq materials inter lighting =
        Material.normal.color_at inter lighting) ∧
    (∀ lighting2, Material.normal.color_at inter lighting =
      Material.normal.color_at inter lighting2) ∧
    (Material.normal.color_at inter lighting =
      inter.normal.map (fun c => 1 / 2 * (c + 1))) := by
  refine ⟨?_, ?_, ?_, fun lighting2 => rfl, rfl⟩
  · intro c hc
    simp [Object.color_at, hc]
  · intro hnone mr hmr
    simp [Object.color_at, hnone, hmr]
  · intro hnone hmr
    simp [Object.color_at, hnone, hmr, DEFAULT_MATERIAL]

/-- C7 witness: a sphere-shaped object with no material reference shades by
the default `Normal` material at a hit with normal `(0,0,1)`, giving
`(1/2, 1/2, 1)`. -/
theorem claim_c7_witness :
    (Object.mk none (Shape.sphere ⟨⟨0, 0, 0⟩, 1⟩)).color_at Rat.sqrt []
      ⟨0, 1, ⟨0, 0, 1⟩, ⟨0, 0, 1⟩⟩ ⟨⟨5, 5, 5⟩⟩ =
      Material.normal.color_at ⟨0, 1, ⟨0, 0, 1⟩, ⟨0, 0, 1⟩⟩ ⟨⟨5, 5, 5⟩⟩ :=
  (claim_c7_color_resolution Rat.sqrt [] _ _ _).2.2.1 rfl rfl

theorem Vec3.add_zero (a : Vec3) : Vec3.add a Vec3.zero = a := by
  simp [Vec3.add, Vec3.zero]

theorem Vec3.foldl_add_eq (ys : List Vec3) :
    ∀ acc : Vec3, ys.foldl Vec3.add acc = Vec3.add acc (Vec3.vsum ys) := by
  induction ys with
  | nil => intro acc; simp [Vec3.vsum, Vec3.add_zero]
  | cons y ys ih =>
    intro acc
    have h1 : Vec3.vsum (y :: ys) = Vec3.add y (Vec3.vsum ys) := by
      show List.foldl Vec3.add Vec3.zero (y :: ys) = _
      rw [List.foldl_cons, ih, Vec3.zero_add]
    rw [List.foldl_cons, ih, h1, Vec3.add_assoc]

theorem Vec3.vsum_append (xs ys : List Vec3) :
    Vec3.vsum (xs ++ ys) = Vec3.add (Vec3.vsum xs) (Vec3.vsum ys) := by
  rw [Vec3.vsum, List.foldl_append, Vec3.foldl_add_eq]
  rfl

/-- C8: `Lights::lighting` is the sum of every light's independent
contribution against the same ray and hit record; it is a total function
(never fails — the HDRI variant is modelled by its pure sampling function,
its file loading being out-of-scope I/O); the empty light list yields the
zero (black) force, and lighting is additive over concatenation of light
lists. -/
theorem claim_c8_lighting_additive (sq : ℚ → ℚ) (ray : Ray) (inter : Inter) :
    (∀ lights : List Light, (Lights.lighting sq lights ray inter).force =
      Vec3.vsum (lights.map (fun l => l.lighting sq ray inter))) ∧
    ((Lights.lighting sq [] ray inter).force = Vec3.zero) ∧
    (∀ l1 l2 : List Light, (Lights.lighting sq (l1 ++ l2) ray inter).force =
      Vec3.add (Lights.lighting sq l1 ray inter).force
        (Lights.lighting sq l2 ray inter).force) := by
  refine ⟨fun lights => rfl, rfl, fun l1 l2 => ?_⟩
  simp only [Lights.lighting, List.map_append, Vec3.vsum_append]

theorem foldl_optMerge_some (xs : List (Option Vec3)) :
    ∀ a : Vec3, xs.foldl optMerge (some a) =
      some ((xs.filterMap id).foldl Vec3.add a) := by
  induction xs with
  | nil => intro a; rfl
  | cons x xs ih =>
    intro a
    cases x with
    | none => rw [List.foldl_cons]; exact ih a
    | some b => rw [List.foldl_cons]; exact ih (Vec3.add a b)

theorem foldl_optMerge_none (xs : List (Option Vec3)) :
    xs.foldl optMerge none =
      match xs.filterMap id with
      | [] => none
      | y :: ys => some (ys.foldl Vec3.add y) := by
  induction xs with
  | nil => rfl
  | cons x xs ih =>
    cases x with
    | none => rw [List.foldl_cons]; exact ih
    | some b => rw [List.foldl_cons]; exact foldl_optMerge_some xs b

theorem listReduce_optMerge_join (l : List (Option Vec3)) :
    (listReduce optMerge l).join = l.foldl optMerge none := by
  cases l with
  | nil => rfl
  | cons x xs => rw [listReduce, Option.join, List.foldl_cons]; rfl

/-- C6: metaball color compositing — each ball with a material contributes
its material's color scaled by `strength_at = power / |hitpoint − center|`,
balls without a material are skipped, the summed contribution (in scan order)
is divided by the total field value at the hit point; with no contributing
ball the shape reports no color and the object falls back to its own
material reference or the default material. -/
theorem claim_c6_metaballs_color (sq : ℚ → ℚ) (materials : List Material)
    (mb : MetaBalls) (inter : Inter) (lighting : Lighting) :
    (mb.color_at sq materials inter lighting =
      match mb.balls.filterMap (fun b => b.color_at sq materials inter lighting) with
      | [] => none
      | c :: cs => some (Vec3.divs (cs.foldl Vec3.add c) (mb.force_at sq inter.point))) ∧
    (∀ (b : MetaBall) (mr : ℕ), b.material_ref = some mr →
      b.color_at sq materials inter lighting =
        some (Vec3.smul (b.strength_at sq inter.point)
          ((Materials.get materials mr).color_at inter lighting))) ∧
    (∀ b : MetaBall, b.material_ref = none →
      b.color_at sq materials inter lighting = none) ∧
    ((∀ b ∈ mb.balls, b.material_ref = none) →
      mb.color_at sq materials inter lighting = none) ∧
    ((∀ b ∈ mb.balls, b.material_ref = none) → ∀ omat : Option ℕ,
      (Object.mk omat (Shape.metaBalls mb)).color_at sq materials inter lighting =
        (match omat with
         | some mr => (Materials.get materials mr).color_at inter lighting
         | none => Material.normal.color_at inter lighting)) := by
  have hmain : mb.color_at sq materials inter lighting =
      match mb.balls.filterMap (fun b => b.color_at sq materials inter lighting) with
      | [] => none
      | c :: cs => some (Vec3.divs (cs.foldl Vec3.add c) (mb.force_at sq inter.point)) := by
    unfold MetaBalls.color_at
    rw [listReduce_optMerge_join, foldl_optMerge_none]
    have hfm : (mb.balls.map (fun b => b.color_at sq materials inter lighting)).filterMap id
        = mb.balls.filterMap (fun b => b.color_at sq materials inter lighting) := by
      rw [List.filterMap_map]
      rfl
    rw [hfm]
    rcases hb : mb.balls.filterMap (fun b => b.color_at sq materials inter lighting) with
      - | ⟨c, cs⟩
    · rw [hb]
      rfl
    · rw [hb]
      rfl
  have hskip : ∀ b : MetaBall, b.material_ref = none →
      b.color_at sq materials inter lighting = none := by
    intro b hb
    simp [MetaBall.color_at, hb]
  have hempty : (∀ b ∈ mb.balls, b.material_ref = none) →
      mb.color_at sq materials inter lighting = none := by
    intro h
    rw [hmain]
    have : mb.balls.filterMap (fun b => b.color_at sq materials inter lighting) = [] :=
      List.filterMap_eq_nil_iff.mpr (fun b hb => hskip b (h b hb))
    rw [this]
  refine ⟨hmain, ?_, hskip, hempty, ?_⟩
  · intro b mr hb
    simp [MetaBall.color_at, hb]
  · intro h omat
    have hnone : (Shape.metaBalls mb).color_at sq materials inter lighting = none := by
      simpa [Shape.color_at] using hempty h
    cases omat with
    | none => simp [Object.color_at, hnone, DEFAULT_MATERIAL]
    | some mr => simp [Object.color_at, hnone, DEFAULT_MATERIAL]

/-- C6 witness: a power-1 ball at the origin with a simple white material,
hit at `(2,0,0)` under lighting `(1,1,1)`, contributes the white color scaled
by its strength `1/2` at the hit point. -/
theorem claim_c6_witness :
    (MetaBall.mk (some 0) ⟨0, 0, 0⟩ 1).color_at Rat.sqrt [Material.simple ⟨1, 1, 1⟩]
      ⟨0, 1, ⟨2, 0, 0⟩, ⟨1, 0, 0⟩⟩ ⟨⟨1, 1, 1⟩⟩ =
      some (Vec3.smul
        ((MetaBall.mk (some 0) ⟨0, 0, 0⟩ 1).strength_at Rat.sqrt ⟨2, 0, 0⟩)
        ((Materials.get [Material.simple ⟨1, 1, 1⟩] 0).color_at
          ⟨0, 1, ⟨2, 0, 0⟩, ⟨1, 0, 0⟩⟩ ⟨⟨1, 1, 1⟩⟩)) :=
  (claim_c6_metaballs_color Rat.sqrt [Material.simple ⟨1, 1, 1⟩] ⟨[], 1⟩
    ⟨0, 1, ⟨2, 0, 0⟩, ⟨1, 0, 0⟩⟩ ⟨⟨1, 1, 1⟩⟩).2.1 _ 0 rfl

/-- One `next` call on a reachable iterator state inside the image produces
the specification's pixel ray (in particular the code's precomputed screen
vectors recombine into `right·tan(fov)·aspect·(u−1/2)` and
`−up·tan(fov)·(v−1/2)`) and advances x fastest, wrapping into y. -/
theorem ProjectIter.next_eq (sq tn : ℚ → ℚ) (cam : Camera) (out : Output) (x y : ℕ)
    (hy : y < out.height) :
    ProjectIter.next sq { ProjectIter.new sq tn cam out with x := x, y := y } =
      some (specPixelRay sq tn cam out x y,
        if x + 1 ≥ out.width then { ProjectIter.new sq tn cam out with x := 0, y := y + 1 }
        else { ProjectIter.new sq tn cam out with x := x + 1, y := y }) := by
  have hdir :
      Vec3.add
        (Vec3.add cam.dir
          (Vec3.smul (((x : ℚ) + 1 / 2) / (out.width : ℚ) - 1 / 2)
            (Vec3.smul out.aspect (Vec3.smul (tn cam.fov) (Camera.right sq cam)))))
        (Vec3.smul (((y : ℚ) + 1 / 2) / (out.height : ℚ) - 1 / 2)
          (Vec3.smul (tn cam.fov) (Vec3.neg cam.up))) =
      Vec3.add
        (Vec3.add cam.dir
          (Vec3.smul (tn cam.fov * out.aspect * (((x : ℚ) + 1 / 2) / (out.width : ℚ) - 1 / 2))
            (Camera.right sq cam)))
        (Vec3.neg
          (Vec3.smul (tn cam.fov * (((y : ℚ) + 1 / 2) / (out.height : ℚ) - 1 / 2))
            cam.up)) := by
    simp only [Vec3.add, Vec3.smul, Vec3.neg, Vec3.mk.injEq]
    refine ⟨by ring, by ring, by ring⟩
  unfold ProjectIter.next ProjectIter.new specPixelRay
  rw [if_neg (by simp; omega)]
  simp only
  rw [hdir]

/-- Past the last row the projection iterator yields nothing, whatever the
fuel. -/
theorem ProjectIter.run_done (sq tn : ℚ → ℚ) (cam : Camera) (out : Output) (x y : ℕ)
    (hy : out.height ≤ y) :
    ∀ fuel, ProjectIter.run sq fuel { ProjectIter.new sq tn cam out with x := x, y := y } =
      [] := by
  intro fuel
  cases fuel with
  | zero => rfl
  | succ n =>
    rw [ProjectIter.run]
    have hnone : ProjectIter.next sq { ProjectIter.new sq tn cam out with x := x, y := y } =
        none := by
      unfold ProjectIter.next ProjectIter.new
      rw [if_pos]
      exact hy
    rw [hnone]

/-- Unfolding step of `run` when the iterator yields an item. -/
theorem ProjectIter.run_succ (sq : ℚ → ℚ) (n : ℕ) (it : ProjectIter) (px : PixelRay)
    (it2 : ProjectIter) (h : it.next sq = some (px, it2)) :
    ProjectIter.run sq (n + 1) it = px :: ProjectIter.run sq n it2 := by
  rw [ProjectIter.run, h]

/-- Running the projection iterator from pixel `(x, y)` with enough fuel
produces the rest of row `y` followed by all later rows, row-major. -/
theorem ProjectIter.run_from (sq tn : ℚ → ℚ) (cam : Camera) (out : Output) :
    ∀ (fuel x y : ℕ), x < out.width → y < out.height →
      (out.height - y) * out.width - x ≤ fuel →
      ProjectIter.run sq fuel { ProjectIter.new sq tn cam out with x := x, y := y } =
        ((List.range (out.width - x)).map (fun k => specPixelRay sq tn cam out (x + k) y)) ++
        ((List.range (out.height - (y + 1))).flatMap (fun j =>
          (List.range out.width).map (fun i => specPixelRay sq tn cam out i (y + 1 + j)))) := by
  intro fuel
  induction fuel with
  | zero =>
    intro x y hx hy hfuel
    exfalso
    have h1 : 1 ≤ out.height - y := by omega
    have h2 : out.width ≤ (out.height - y) * out.width := by
      calc out.width = 1 * out.width := (one_mul _).symm
        _ ≤ (out.height - y) * out.width := Nat.mul_le_mul_right _ h1
    omega
  | succ n ih =>
    intro x y hx hy hfuel
    rw [ProjectIter.run_succ sq n _ _ _ (ProjectIter.next_eq sq tn cam out x y hy)]
    by_cases hxe : x + 1 ≥ out.width
    · rw [if_pos hxe]
      have hwx : out.width - x = 1 := by omega
      rw [hwx, show List.range 1 = [0] from rfl, List.map_singleton, Nat.add_zero,
        List.singleton_append]
      by_cases hye : y + 1 < out.height
      · have harith : (out.height - (y + 1)) * out.width - 0 ≤ n := by
          have hs : out.height - y = (out.height - (y + 1)) + 1 := by omega
          have hmul : (out.height - y) * out.width =
              (out.height - (y + 1)) * out.width + out.width := by
            rw [hs, Nat.add_mul, one_mul]
          set A := (out.height - y) * out.width
          set B := (out.height - (y + 1)) * out.width
          omega
        rw [ih 0 (y + 1) (by omega) hye harith]
        have hs2 : out.height - (y + 1) = (out.height - (y + 2)) + 1 := by omega
        rw [hs2, List.range_succ_eq_map, List.flatMap_cons, List.flatMap_map,
          Nat.sub_zero]
        have hrow : (fun k => specPixelRay sq tn cam out (0 + k) (y + 1)) =
            (fun i => specPixelRay sq tn cam out i (y + 1 + 0)) := by
          funext k
          rw [Nat.zero_add]
        have hrows : (fun j => (List.range out.width).map
              (fun i => specPixelRay sq tn cam out i (y + 2 + j))) =
            (fun j => (List.range out.width).map
              (fun i => specPixelRay sq tn cam out i (y + 1 + Nat.succ j))) := by
          funext j
          rw [show y + 2 + j = y + 1 + Nat.succ j from by omega]
        rw [hrow, hrows]
        rfl
      · have hyh : y + 1 = out.height := by omega
        rw [ProjectIter.run_done sq tn cam out 0 (y + 1) (by omega) n]
        rw [show out.height - (y + 1) = 0 from by omega]
        simp
    · rw [if_neg hxe]
      have harith : (out.height - y) * out.width - (x + 1) ≤ n := by
        set A := (out.height - y) * out.width
        omega
      rw [ih (x + 1) y (by omega) hy harith]
      have hwx : out.width - x = (out.width - (x + 1)) + 1 := by omega
      rw [hwx, List.range_succ_eq_map, List.map_cons, List.map_map, Nat.add_zero,
        List.cons_append]
      have hrow : ((fun k => specPixelRay sq tn cam out (x + k) y) ∘ Nat.succ) =
          (fun k => specPixelRay sq tn cam out (x + 1 + k) y) := by
        funext k
        simp only [Function.comp_apply]
        rw [show x + Nat.succ k = x + 1 + k from by omega]
      rw [hrow]
      rfl

/-- C4: for any output with positive width and height, the camera projection
enumerates exactly the pixels of the image in row-major order (x fastest),
one specification pixel ray per pixel — so `width*height` rays with no
duplicates and no gaps — for every fuel at least the pixel count (so the
iterator is exhausted after the last pixel); each ray is sampled at the pixel
center with direction
`normalize(dir + right*tan(fov)*aspect*(u-1/2) - up*tan(fov)*(v-1/2))` as
recorded in `specPixelRay`. -/
theorem claim_c4_camera_projection (sq tn : ℚ → ℚ) (cam : Camera) (out : Output)
    (hw : 0 < out.width) (hh : 0 < out.height) :
    (∀ fuel, out.width * out.height ≤ fuel →
      ProjectIter.run sq fuel (Camera.project sq tn cam out) =
        (List.range out.height).flatMap (fun y =>
          (List.range out.width).map (fun x => specPixelRay sq tn cam out x y))) ∧
    ((List.range out.height).flatMap (fun y =>
        (List.range out.width).map (fun x => specPixelRay sq tn cam out x y))).length =
      out.width * out.height := by
  constructor
  · intro fuel hfuel
    have h0 : Camera.project sq tn cam out =
        { ProjectIter.new sq tn cam out with x := 0, y := 0 } := rfl
    rw [h0, ProjectIter.run_from sq tn cam out fuel 0 0 hw hh
      (by simpa [Nat.mul_comm out.height out.width] using hfuel)]
    obtain ⟨m, hm⟩ : ∃ m, out.height = m + 1 := ⟨out.height - 1, by omega⟩
    rw [hm]
    rw [show m + 1 - (0 + 1) = m from by omega, Nat.sub_zero,
      List.range_succ_eq_map, List.flatMap_cons, List.flatMap_map]
    have hrow : (fun k => specPixelRay sq tn cam out (0 + k) 0) =
        (fun x => specPixelRay sq tn cam out x 0) := by
      funext k
      rw [Nat.zero_add]
    have hrows : (fun j => (List.range out.width).map
          (fun i => specPixelRay sq tn cam out i (0 + 1 + j))) =
        (fun j => (List.range out.width).map
          (fun x => specPixelRay sq tn cam out x (Nat.succ j))) := by
      funext j
      rw [show 0 + 1 + j = Nat.succ j from by omega]
    rw [hrow, hrows]
  · rw [List.length_flatMap]
    have hconst : (List.length ∘ fun y => (List.range out.width).map
        (fun x => specPixelRay sq tn cam out x y)) = fun _ => out.width := by
      funext y
      simp
    rw [hconst, List.map_const', List.length_range, List.sum_replicate, smul_eq_mul,
      Nat.mul_comm]

/-- C4 witness: a 1×1 output with a concrete camera — the projection yields
exactly the single center-pixel specification ray and stops. -/
theorem claim_c4_witness :
    ProjectIter.run Rat.sqrt 1 (Camera.project Rat.sqrt (fun _ => 1)
      ⟨⟨0, 0, 0⟩, ⟨0, 0, 1⟩, ⟨0, 1, 0⟩, 1⟩ ⟨1, 1, 5⟩) =
      (List.range 1).flatMap (fun y => (List.range 1).map (fun x =>
        specPixelRay Rat.sqrt (fun _ => 1) ⟨⟨0, 0, 0⟩, ⟨0, 0, 1⟩, ⟨0, 1, 0⟩, 1⟩
          ⟨1, 1, 5⟩ x y)) :=
  (claim_c4_camera_projection Rat.sqrt (fun _ => 1) ⟨⟨0, 0, 0⟩, ⟨0, 0, 1⟩, ⟨0, 1, 0⟩, 1⟩
    ⟨1, 1, 5⟩ (by norm_num) (by norm_num)).1 1 (by norm_num)

end GravityLens